import Mathlib

/-!
# ManagedTicker (ticker.go): a shallow embedding and its contract

The Go type `ManagedTicker` wraps a `time.Ticker`, a capacity-1 channel, a
cancellable context and a mutex.  Every method that touches the state holds the
mutex for its whole body (`Lock` followed by `defer Unlock`), so each method is
one atomic transition of the state below; the mutex itself carries no further
information and is not a field of the model.

The Go runtime primitives the source calls are modelled by their documented
behaviour:

* a buffered channel of capacity 1 (`make(chan time.Time, 1)`): non-blocking
  send inside a `select` with a `default` branch, `close`, and the
  two-valued receive `v, ok := <-ch`;
* `time.NewTicker`, `(*time.Ticker).Reset`, `(*time.Ticker).Stop`:
  a period together with the instant of the next fire (absent when stopped);
  `NewTicker` and `Reset` panic on a non-positive duration;
* `context.WithCancel`: a flag, set by `cancel()`, read by `ctx.Err() != nil`;
* `time.AfterFunc(d, f)`: a pending one-shot call of `f`, due at `now + d`.

Instants (`time.Time`) and durations (`time.Duration`) are integers counting
nanoseconds.  Each operation takes the instant `now` at which it runs.  The
sum `now + d` is taken in the integers: the overflow of a 64-bit instant, which
the runtime saturates, is outside the model.
-/

namespace Ticker

/-- Instants: `time.Time`, as nanoseconds on the monotonic clock. -/
abbrev Time := Int

/-- Durations: `time.Duration`, a signed count of nanoseconds. -/
abbrev Duration := Int

/-- The run-time panics the code can raise. -/
inductive Panic where
  /-- Raised by `time.NewTicker` and `(*time.Ticker).Reset` when `d <= 0`. -/
  | nonPositiveInterval
  /-- Raised by `close(ch)` on a channel that is already closed. -/
  | closeOfClosedChannel
  /-- Raised by `ch <- v` on a closed channel. -/
  | sendOnClosedChannel
  deriving DecidableEq, Repr

/-! ## The capacity-1 channel -/

/-- A channel made by `make(chan time.Time, 1)`: at most one buffered value, and
the closed flag. -/
structure Chan where
  buf : Option Time
  closed : Bool
  deriving DecidableEq, Repr

/-- The channel `make(chan time.Time, 1)`: empty and open. -/
def Chan.make : Chan := { buf := none, closed := false }

/-- The built-in `len(ch)`: the number of buffered values. -/
def Chan.len (ch : Chan) : Nat :=
  match ch.buf with
  | some _ => 1
  | none => 0

/-- The send case of `select { case ch <- v: ...; default: }`.  The result is
`some ch1` when the value was enqueued, `none` when the buffer is full and the
`default` branch runs; sending on a closed channel panics. -/
def Chan.trySend (ch : Chan) (v : Time) : Except Panic (Option Chan) :=
  if ch.closed then .error .sendOnClosedChannel
  else
    match ch.buf with
    | none => .ok (some { ch with buf := some v })
    | some _ => .ok none

/-- The built-in `close(ch)`: keeps the buffered value, panics when the channel
is closed already. -/
def Chan.close (ch : Chan) : Except Panic Chan :=
  if ch.closed then .error .closeOfClosedChannel
  else .ok { ch with closed := true }

/-- What a consumer's `v, ok := <-ch` observes. -/
inductive Recv where
  /-- A buffered value was taken (`ok = true`). -/
  | value (v : Time)
  /-- The channel is closed and drained (`ok = false`, zero value). -/
  | closed
  /-- The channel is open and empty: the receive does not complete. -/
  | blocks
  deriving DecidableEq, Repr

/-- The receive `v, ok := <-ch`: what is observed, and the channel afterwards. -/
def Chan.recv (ch : Chan) : Recv × Chan :=
  match ch.buf with
  | some v => (.value v, { ch with buf := none })
  | none => if ch.closed then (.closed, ch) else (.blocks, ch)

/-! ## The runtime ticker `time.Ticker` -/

/-- The schedule of a `time.Ticker`: its period and the instant of its next
fire, `none` once stopped. -/
structure TimeTicker where
  period : Duration
  next : Option Time
  deriving DecidableEq, Repr

/-- The call `time.NewTicker(d)` at instant `now`. -/
def TimeTicker.NewTicker (now : Time) (d : Duration) : Except Panic TimeTicker :=
  if d ≤ 0 then .error .nonPositiveInterval
  else .ok { period := d, next := some (now + d) }

/-- The call `(*time.Ticker).Stop()`: no more fires. -/
def TimeTicker.Stop (tk : TimeTicker) : TimeTicker :=
  { tk with next := none }

/-- The call `(*time.Ticker).Reset(d)` at instant `now`: the period becomes `d`
and the next fire is `d` from now, also for a stopped ticker. -/
def TimeTicker.Reset (now : Time) (d : Duration) (_tk : TimeTicker) :
    Except Panic TimeTicker :=
  if d ≤ 0 then .error .nonPositiveInterval
  else .ok { period := d, next := some (now + d) }

/-- The runtime re-arms a ticker that fired at instant `w` for `w + period`. -/
def TimeTicker.rearm (tk : TimeTicker) (w : Time) : TimeTicker :=
  { tk with next := some (w + tk.period) }

/-! ## ManagedTicker -/

/-- The struct `ManagedTicker`.  The exported field `C` is the receive-only view
of `c`, the same channel.  `ctxErr` is `t.ctx.Err() != nil`, the state of the
context that `t.cancel` cancels.  `afterFuncs` holds the due instants of the
calls registered by `time.AfterFunc(d, t.Tick)` that have not run yet. -/
structure ManagedTicker where
  c : Chan
  timeTicker : TimeTicker
  initialDuration : Duration
  ctxErr : Bool
  afterFuncs : List Time
  deriving DecidableEq, Repr

/-- The method `tick(tm)`, run at instant `now`: nothing when the context is
cancelled; otherwise a non-blocking send of `tm`, and only in the send case a
`timeTicker.Reset(initialDuration)`. -/
def tick (now : Time) (tm : Time) (t : ManagedTicker) : Except Panic ManagedTicker :=
  if t.ctxErr then .ok t
  else
    match t.c.trySend tm with
    | .error p => .error p
    | .ok (some ch) =>
      match t.timeTicker.Reset now t.initialDuration with
      | .error p => .error p
      | .ok tk => .ok { t with c := ch, timeTicker := tk }
    | .ok none => .ok t

/-- The method `Tick()`: `t.tick(time.Now())`. -/
def Tick (now : Time) (t : ManagedTicker) : Except Panic ManagedTicker :=
  tick now now t

/-- The constructor `NewTicker(d, tickOnInit)` at instant `now`. -/
def NewTicker (now : Time) (d : Duration) (tickOnInit : Bool) :
    Except Panic ManagedTicker :=
  match TimeTicker.NewTicker now d with
  | .error p => .error p
  | .ok tk =>
    let t : ManagedTicker :=
      { c := Chan.make, timeTicker := tk, initialDuration := d,
        ctxErr := false, afterFuncs := [] }
    if tickOnInit then tick now now t else .ok t

/-- The method `Stop()`: stops the runtime ticker, cancels the context, closes
the channel. -/
def Stop (t : ManagedTicker) : Except Panic ManagedTicker :=
  let t1 := { t with timeTicker := t.timeTicker.Stop }
  let t2 := { t1 with ctxErr := true }
  match t2.c.close with
  | .error p => .error p
  | .ok ch => .ok { t2 with c := ch }

/-- The method `Reset(d)` at instant `now`: `t.timeTicker.Reset(d)` and nothing
else. -/
def Reset (now : Time) (d : Duration) (t : ManagedTicker) : Except Panic ManagedTicker :=
  match t.timeTicker.Reset now d with
  | .error p => .error p
  | .ok tk => .ok { t with timeTicker := tk }

/-- The method `TickAfter(d)` at instant `now`: `time.AfterFunc(d, t.Tick)`
registers one call of `Tick`, due at `now + d`. -/
def TickAfter (now : Time) (d : Duration) (t : ManagedTicker) : ManagedTicker :=
  { t with afterFuncs := t.afterFuncs ++ [now + d] }

/-- The runtime runs the `time.AfterFunc` call registered for instant `w`, at
instant `now`: when such a call is pending and due it is removed and `Tick()`
runs; otherwise nothing happens. -/
def afterFuncFire (now : Time) (w : Time) (t : ManagedTicker) :
    Except Panic ManagedTicker :=
  if w ∈ t.afterFuncs ∧ w ≤ now then
    Tick now { t with afterFuncs := t.afterFuncs.erase w }
  else .ok t

/-- Whether the runtime ticker has a fire due at instant `now`. -/
def timerDue (now : Time) (t : ManagedTicker) : Bool :=
  match t.timeTicker.next with
  | some w => decide (w ≤ now)
  | none => false

/-- One iteration of the goroutine started by `NewTicker`, at instant `now`:
on `<-t.ctx.Done()` it returns; when the runtime ticker has a fire due at `w`
the runtime re-arms it and the goroutine receives `w` and calls `t.tick(w)`;
otherwise the `select` stays blocked. -/
def worker (now : Time) (t : ManagedTicker) : Except Panic ManagedTicker :=
  if t.ctxErr then .ok t
  else
    match t.timeTicker.next with
    | some w =>
      if w ≤ now then tick now w { t with timeTicker := t.timeTicker.rearm w }
      else .ok t
    | none => .ok t

/-- The consumer's receive on `t.C`: what it observes and the ticker after. -/
def receive (t : ManagedTicker) : Recv × ManagedTicker :=
  ((t.c.recv).1, { t with c := (t.c.recv).2 })

/-- The calls `Tick()` in a row, one per instant of the list, stopping at the
first panic. -/
def TickMany : List Time → ManagedTicker → Except Panic ManagedTicker
  | [], t => .ok t
  | tm :: tms, t =>
    match Tick tm t with
    | .error p => .error p
    | .ok t1 => TickMany tms t1

/-- The receives `<-t.C` in a row, `n` of them: the ticker afterwards. -/
def receiveMany : Nat → ManagedTicker → ManagedTicker
  | 0, t => t
  | n + 1, t => receiveMany n (receive t).2

/-- The state is one a constructed ticker can be in: the period remembered at
construction is positive, and the channel is closed exactly when the context
is cancelled (`Stop` does both under the mutex, nothing else does either). -/
def Inv (t : ManagedTicker) : Prop :=
  0 < t.initialDuration ∧ t.c.closed = t.ctxErr

/-- The ticker is running: `Stop()` has not been called. -/
def Running (t : ManagedTicker) : Prop :=
  t.ctxErr = false

instance (t : ManagedTicker) : Decidable (Inv t) := by
  unfold Inv; exact inferInstance

instance (t : ManagedTicker) : Decidable (Running t) := by
  unfold Running; exact inferInstance

/-- The operations on a ticker, as the events of its life. -/
inductive Op where
  | Stop
  | Reset (d : Duration)
  | TickAfter (d : Duration)
  | Tick
  | afterFuncFire (w : Time)
  | worker
  | receive
  deriving DecidableEq, Repr

/-- Running one operation at instant `now`. -/
def Op.run (now : Time) : Op → ManagedTicker → Except Panic ManagedTicker
  | .Stop, t => Ticker.Stop t
  | .Reset d, t => Ticker.Reset now d t
  | .TickAfter d, t => .ok (Ticker.TickAfter now d t)
  | .Tick, t => Ticker.Tick now t
  | .afterFuncFire w, t => Ticker.afterFuncFire now w t
  | .worker, t => Ticker.worker now t
  | .receive, t => .ok (Ticker.receive t).2

/-- The states a ticker goes through: the one `NewTicker` returns, and those
reached from it by operations that do not panic. -/
inductive Reachable : ManagedTicker → Prop where
  | init (now : Time) (d : Duration) (b : Bool) (t : ManagedTicker)
      (h : NewTicker now d b = .ok t) : Reachable t
  | step (now : Time) (op : Op) (t t1 : ManagedTicker)
      (ht : Reachable t) (h : op.run now t = .ok t1) : Reachable t1

/-! ## The delivery routine, case by case -/

theorem tick_cancelled (now tm : Time) (t : ManagedTicker) (h : t.ctxErr = true) :
    tick now tm t = .ok t := by
  simp [tick, h]

theorem tick_full (now tm v : Time) (t : ManagedTicker) (hinv : Inv t)
    (hrun : Running t) (hbuf : t.c.buf = some v) : tick now tm t = .ok t := by
  have hcl : t.c.closed = false := by rw [hinv.2]; exact hrun
  simp [tick, Chan.trySend, hcl, hbuf, show t.ctxErr = false from hrun]

theorem tick_empty (now tm : Time) (t : ManagedTicker) (hinv : Inv t)
    (hrun : Running t) (hbuf : t.c.buf = none) :
    tick now tm t = .ok { t with
      c := { t.c with buf := some tm }
      timeTicker := { period := t.initialDuration, next := some (now + t.initialDuration) } } := by
  have hcl : t.c.closed = false := by rw [hinv.2]; exact hrun
  have hpos : ¬ t.initialDuration ≤ 0 := not_le.mpr hinv.1
  simp [tick, Chan.trySend, TimeTicker.Reset, hcl, hbuf, show t.ctxErr = false from hrun, hpos]

theorem TickMany_cancelled (tms : List Time) (t : ManagedTicker) (h : t.ctxErr = true) :
    TickMany tms t = .ok t := by
  induction tms with
  | nil => rfl
  | cons tm tms ih => simp [TickMany, Tick, tick_cancelled _ _ t h, ih]

theorem TickMany_full (tms : List Time) (v : Time) (t : ManagedTicker) (hinv : Inv t)
    (hrun : Running t) (hbuf : t.c.buf = some v) : TickMany tms t = .ok t := by
  induction tms with
  | nil => rfl
  | cons tm tms ih => simp [TickMany, Tick, tick_full _ _ v t hinv hrun hbuf, ih]

theorem Stop_running (t : ManagedTicker) (hinv : Inv t) (hrun : Running t) :
    Stop t = .ok { t with
      timeTicker := t.timeTicker.Stop
      ctxErr := true
      c := { t.c with closed := true } } := by
  have hcl : t.c.closed = false := by rw [hinv.2]; exact hrun
  simp [Stop, Chan.close, hcl]

theorem Stop_ok_inv (t t1 : ManagedTicker) (h : Stop t = .ok t1) :
    t.c.closed = false ∧
    t1 = { t with
      timeTicker := t.timeTicker.Stop
      ctxErr := true
      c := { t.c with closed := true } } := by
  unfold Stop Chan.close at h
  by_cases hcl : t.c.closed = true
  · simp [hcl] at h
  · simp only [Bool.not_eq_true] at hcl
    simp [hcl] at h
    exact ⟨hcl, h.symm⟩

/-! ## The invariant -/

theorem tick_Inv (now tm : Time) (t t1 : ManagedTicker) (hinv : Inv t)
    (h : tick now tm t = .ok t1) : Inv t1 := by
  by_cases hc : t.ctxErr = true
  · rw [tick_cancelled _ _ _ hc] at h
    cases h; exact hinv
  · have hrun : Running t := by simpa [Running] using hc
    cases hb : t.c.buf with
    | none =>
      rw [tick_empty _ _ _ hinv hrun hb] at h
      cases h; exact hinv
    | some v =>
      rw [tick_full _ _ v _ hinv hrun hb] at h
      cases h; exact hinv

theorem NewTicker_Inv (now : Time) (d : Duration) (b : Bool) (t : ManagedTicker)
    (h : NewTicker now d b = .ok t) : Inv t ∧ Running t := by
  unfold NewTicker TimeTicker.NewTicker at h
  by_cases hd : d ≤ 0
  · simp [hd] at h
  · have hpos : 0 < d := not_le.mp hd
    simp only [hd, if_false] at h
    have hinv0 : Inv (ManagedTicker.mk Chan.make (TimeTicker.mk d (some (now + d))) d false []) :=
      ⟨hpos, rfl⟩
    cases b with
    | false =>
      simp at h
      subst h; exact ⟨hinv0, rfl⟩
    | true =>
      simp only [if_true] at h
      rw [tick_empty _ _ _ hinv0 rfl rfl] at h
      cases h; exact ⟨hinv0, rfl⟩

theorem Op_run_Inv (now : Time) (op : Op) (t t1 : ManagedTicker) (hinv : Inv t)
    (h : op.run now t = .ok t1) : Inv t1 := by
  cases op with
  | Stop =>
    obtain ⟨_, rfl⟩ := Stop_ok_inv t t1 h
    exact ⟨hinv.1, rfl⟩
  | Reset d =>
    simp only [Op.run, Reset, TimeTicker.Reset] at h
    by_cases hd : d ≤ 0
    · simp [hd] at h
    · simp [hd] at h
      subst h; exact hinv
  | TickAfter d =>
    simp only [Op.run, TickAfter] at h
    cases h; exact hinv
  | Tick => exact tick_Inv now now t t1 hinv h
  | afterFuncFire w =>
    simp only [Op.run, afterFuncFire] at h
    by_cases hw : w ∈ t.afterFuncs ∧ w ≤ now
    · rw [if_pos hw] at h
      refine tick_Inv now now _ t1 ?_ h
      exact hinv
    · rw [if_neg hw] at h
      cases h; exact hinv
  | worker =>
    simp only [Op.run, worker] at h
    by_cases hc : t.ctxErr = true
    · simp [hc] at h
      subst h; exact hinv
    · rw [if_neg hc] at h
      cases hn : t.timeTicker.next with
      | none =>
        simp [hn] at h
        subst h; exact hinv
      | some w =>
        simp only [hn] at h
        by_cases hw : w ≤ now
        · rw [if_pos hw] at h
          refine tick_Inv now w _ t1 ?_ h
          exact hinv
        · rw [if_neg hw] at h
          cases h; exact hinv
  | receive =>
    simp only [Op.run, receive] at h
    cases h
    refine ⟨hinv.1, ?_⟩
    show (t.c.recv).2.closed = t.ctxErr
    rw [← hinv.2]
    unfold Chan.recv
    cases t.c.buf <;> simp
    split <;> rfl

theorem Reachable_Inv (t : ManagedTicker) (h : Reachable t) : Inv t := by
  induction h with
  | init now d b t h => exact (NewTicker_Inv now d b t h).1
  | step now op t t1 _ h ih => exact Op_run_Inv now op t t1 ih h

/-- The delivery routine neither reads nor writes the pending `AfterFunc`
calls. -/
theorem tick_afterFuncs (now tm : Time) (t : ManagedTicker) (l : List Time) :
    tick now tm { t with afterFuncs := l } =
      (tick now tm t).map (fun u => { u with afterFuncs := l }) := by
  unfold tick
  by_cases hc : t.ctxErr = true
  · simp [hc, Except.map]
  · have hc1 : t.ctxErr = false := by simpa using hc
    unfold Chan.trySend
    by_cases hcl : t.c.closed = true
    · simp [hc1, hcl, Except.map]
    · have hcl1 : t.c.closed = false := by simpa using hcl
      cases hb : t.c.buf with
      | some v => simp [hc1, hcl1, Except.map]
      | none =>
        by_cases hd : t.initialDuration ≤ 0
        · simp [hc1, hcl1, TimeTicker.Reset, hd, Except.map]
        · simp [hc1, hcl1, TimeTicker.Reset, hd, Except.map]

theorem tick_keeps_afterFuncs (now tm : Time) (t u : ManagedTicker)
    (h : tick now tm t = .ok u) : u.afterFuncs = t.afterFuncs := by
  unfold tick Chan.trySend TimeTicker.Reset at h
  by_cases hc : t.ctxErr = true
  · simp [hc] at h
    subst h; rfl
  · have hc1 : t.ctxErr = false := by simpa using hc
    by_cases hcl : t.c.closed = true
    · simp [hc1, hcl] at h
    · have hcl1 : t.c.closed = false := by simpa using hcl
      cases hb : t.c.buf with
      | some v =>
        simp [hc1, hcl1, hb] at h
        subst h; rfl
      | none =>
        by_cases hd : t.initialDuration ≤ 0
        · simp [hc1, hcl1, hb, hd] at h
        · simp [hc1, hcl1, hb, hd] at h
          subst h; rfl

theorem NewTicker_pos (now : Time) (d : Duration) (tickOnInit : Bool) (hd : 0 < d) :
    NewTicker now d tickOnInit = .ok { 
      c := { buf := if tickOnInit then some now else none, closed := false }
      timeTicker := { period := d, next := some (now + d) }
      initialDuration := d
      ctxErr := false
      afterFuncs := [] } := by
  have hd1 : ¬ d ≤ 0 := not_le.mpr hd
  have hinv0 : Inv (ManagedTicker.mk Chan.make (TimeTicker.mk d (some (now + d))) d false []) :=
    ⟨hd, rfl⟩
  cases tickOnInit with
  | false => simp [NewTicker, TimeTicker.NewTicker, hd1, Chan.make]
  | true =>
    have hN1 : NewTicker now d true = tick now now
        (ManagedTicker.mk Chan.make (TimeTicker.mk d (some (now + d))) d false []) := by
      simp [NewTicker, TimeTicker.NewTicker, hd1]
    rw [hN1, tick_empty _ _ _ hinv0 rfl rfl]
    simp [Chan.make]

/-! ## The consumer's side -/

theorem receive_closed_empty (t : ManagedTicker) (hbuf : t.c.buf = none)
    (hcl : t.c.closed = true) : receive t = (.closed, t) := by
  have h : t.c.recv = (.closed, t.c) := by simp [Chan.recv, hbuf, hcl]
  simp [receive, h]

theorem receiveMany_closed_empty (n : Nat) (t : ManagedTicker) (hbuf : t.c.buf = none)
    (hcl : t.c.closed = true) : receiveMany n t = t := by
  induction n with
  | zero => rfl
  | succ n ih => simp [receiveMany, receive_closed_empty t hbuf hcl, ih]

theorem receive_pending (t : ManagedTicker) (v : Time) (hbuf : t.c.buf = some v) :
    receive t = (.value v, { t with c := { t.c with buf := none } }) := by
  have h : t.c.recv = (.value v, { t.c with buf := none }) := by simp [Chan.recv, hbuf]
  simp [receive, h]

theorem receive_after_close (t1 : ManagedTicker) (hcl : t1.c.closed = true) :
    (∀ tm, t1.c.buf = some tm →
      (receive t1).1 = .value tm ∧
      ∀ n, (receive (receiveMany (n + 1) t1)).1 = .closed) ∧
    (t1.c.buf = none → ∀ n, (receive (receiveMany n t1)).1 = .closed) := by
  constructor
  · intro tm hb
    refine ⟨by rw [receive_pending t1 tm hb], ?_⟩
    intro n
    rw [receiveMany, receive_pending t1 tm hb]
    have e := receiveMany_closed_empty n { t1 with c := { t1.c with buf := none } } rfl hcl
    have r := receive_closed_empty { t1 with c := { t1.c with buf := none } } rfl hcl
    show (receive (receiveMany n { t1 with c := { t1.c with buf := none } })).1 = .closed
    rw [e, r]
  · intro hb n
    rw [receiveMany_closed_empty n t1 hb hcl, receive_closed_empty t1 hb hcl]

/-! ## The contract -/

/-- C1 (coalescing): on a running ticker whose channel is empty, `K >= 2` calls
of `Tick()` with timestamps `t1 .. tK` and no receive in between all succeed
and leave exactly one tick pending, `t1`; the state after any number `k >= 1`
of the calls is the state after all of them, so each later tick is dropped and
changes nothing. -/
theorem coalescing (t : ManagedTicker) (tms : List Time) (hinv : Inv t)
    (hrun : Running t) (hempty : t.c.buf = none) (hK : 2 ≤ tms.length) :
    ∃ t1 tK, tms.head? = some t1 ∧ TickMany tms t = .ok tK ∧
      tK.c.buf = some t1 ∧ tK.c.len = 1 ∧
      ∀ k, 1 ≤ k → TickMany (tms.take k) t = .ok tK := by
  cases tms with
  | nil => simp at hK
  | cons t1 rest =>
    have h1 := tick_empty t1 t1 t hinv hrun hempty
    have hfull : ∀ l : List Time, TickMany (t1 :: l) t = .ok { t with
        c := { t.c with buf := some t1 }
        timeTicker := { period := t.initialDuration,
                        next := some (t1 + t.initialDuration) } } := by
      intro l
      simp only [TickMany, Tick, h1]
      exact TickMany_full l t1 _ hinv hrun rfl
    refine ⟨t1, _, rfl, hfull rest, rfl, rfl, ?_⟩
    intro k hk
    obtain ⟨j, rfl⟩ : ∃ j, k = j + 1 := ⟨k - 1, by omega⟩
    rw [List.take_succ_cons]
    exact hfull _

/-- The witness of C1: three calls of `Tick()` on the ticker that
`NewTicker(10, false)` built at instant 0. -/
theorem coalescing_witness :
    ∃ t1 tK, [3, 5, 8].head? = some t1 ∧
      TickMany [3, 5, 8] (ManagedTicker.mk ⟨none, false⟩ ⟨10, some 10⟩ 10 false []) = .ok tK ∧
      tK.c.buf = some t1 ∧ tK.c.len = 1 ∧
      ∀ k, 1 ≤ k →
        TickMany (([3, 5, 8] : List Time).take k)
          (ManagedTicker.mk ⟨none, false⟩ ⟨10, some 10⟩ 10 false []) = .ok tK :=
  coalescing (ManagedTicker.mk ⟨none, false⟩ ⟨10, some 10⟩ 10 false []) [3, 5, 8]
    (by decide) (by decide) rfl (by decide)

/-- C2 (post-stop silence): once `Stop()` has returned, any number of calls of
`Tick()` succeed and leave the whole state, so the channel's pending content,
its closed status and the timer schedule, exactly as `Stop` left it: the
channel holds what it held before `Stop`, and the runtime ticker is stopped. -/
theorem post_stop_silence (t t1 : ManagedTicker) (tms : List Time)
    (hstop : Stop t = .ok t1) :
    TickMany tms t1 = .ok t1 ∧ t1.c.buf = t.c.buf ∧ t1.c.closed = true ∧
      t1.timeTicker.next = none := by
  obtain ⟨_, rfl⟩ := Stop_ok_inv t t1 hstop
  exact ⟨TickMany_cancelled tms _ rfl, rfl, rfl, rfl⟩

/-- The witness of C2: `Stop()` on a running ticker with a pending tick, then
three calls of `Tick()`. -/
theorem post_stop_silence_witness :
    Stop (ManagedTicker.mk ⟨some 0, false⟩ ⟨10, some 10⟩ 10 false []) =
        .ok (ManagedTicker.mk ⟨some 0, true⟩ ⟨10, none⟩ 10 true []) ∧
      TickMany [1, 2, 30] (ManagedTicker.mk ⟨some 0, true⟩ ⟨10, none⟩ 10 true []) =
        .ok (ManagedTicker.mk ⟨some 0, true⟩ ⟨10, none⟩ 10 true []) :=
  ⟨rfl, (post_stop_silence (ManagedTicker.mk ⟨some 0, false⟩ ⟨10, some 10⟩ 10 false [])
    (ManagedTicker.mk ⟨some 0, true⟩ ⟨10, none⟩ 10 true []) [1, 2, 30] rfl).1⟩

/-- C3 (drain to close): `Stop()` on a running ticker succeeds, closes the
channel and keeps its buffer as it was.  With a tick `tm` pending, the first
receive after `Stop` yields `tm` and every later receive reports closure; with
an empty channel every receive after `Stop`, the first included, reports
closure. -/
theorem drain_to_close (t : ManagedTicker) (hinv : Inv t) (hrun : Running t) :
    ∃ t1, Stop t = .ok t1 ∧ t1.c.buf = t.c.buf ∧ t1.c.closed = true ∧
      (∀ tm, t.c.buf = some tm →
        (receive t1).1 = .value tm ∧
        ∀ n, (receive (receiveMany (n + 1) t1)).1 = .closed) ∧
      (t.c.buf = none → ∀ n, (receive (receiveMany n t1)).1 = .closed) := by
  have h := receive_after_close { t with
    timeTicker := t.timeTicker.Stop
    ctxErr := true
    c := { t.c with closed := true } } rfl
  exact ⟨_, Stop_running t hinv hrun, rfl, rfl, h⟩

/-- The witness of C3: the ticker that `NewTicker(10, true)` built at instant 0,
whose initial tick is still pending. -/
theorem drain_to_close_witness :
    ∃ t1, Stop (ManagedTicker.mk ⟨some 0, false⟩ ⟨10, some 10⟩ 10 false []) = .ok t1 ∧
      t1.c.buf = some 0 ∧ t1.c.closed = true ∧
      (receive t1).1 = .value 0 ∧ (receive (receiveMany 1 t1)).1 = .closed ∧
      (receive (receiveMany 2 t1)).1 = .closed := by
  obtain ⟨t1, h1, h2, h3, h4, _⟩ :=
    drain_to_close (ManagedTicker.mk ⟨some 0, false⟩ ⟨10, some 10⟩ 10 false [])
      (by decide) (by decide)
  exact ⟨t1, h1, h2, h3, (h4 0 rfl).1, (h4 0 rfl).2 0, (h4 0 rfl).2 1⟩

/-- C4 (period validation): `NewTicker(d, tickOnInit)` panics exactly when
`d <= 0`, `Reset(d)` on any ticker panics exactly when `d <= 0`, the panic is
the runtime ticker's non-positive-interval one, and for `d > 0` both return. -/
theorem period_validation (now : Time) (d : Duration) (tickOnInit : Bool)
    (t : ManagedTicker) :
    ((∃ p, NewTicker now d tickOnInit = .error p) ↔ d ≤ 0) ∧
    ((∃ p, Reset now d t = .error p) ↔ d ≤ 0) ∧
    (d ≤ 0 → NewTicker now d tickOnInit = .error .nonPositiveInterval ∧
      Reset now d t = .error .nonPositiveInterval) ∧
    (0 < d → (∃ t1, NewTicker now d tickOnInit = .ok t1) ∧
      ∃ t1, Reset now d t = .ok t1) := by
  by_cases hd : d ≤ 0
  · have hN : NewTicker now d tickOnInit = .error .nonPositiveInterval := by
      simp [NewTicker, TimeTicker.NewTicker, hd]
    have hR : Reset now d t = .error .nonPositiveInterval := by
      simp [Reset, TimeTicker.Reset, hd]
    refine ⟨⟨fun _ => hd, fun _ => ⟨_, hN⟩⟩, ⟨fun _ => hd, fun _ => ⟨_, hR⟩⟩,
      fun _ => ⟨hN, hR⟩, fun h => absurd h (not_lt.mpr hd)⟩
  · have hR : Reset now d t = .ok { t with timeTicker := ⟨d, some (now + d)⟩ } := by
      simp [Reset, TimeTicker.Reset, hd]
    have hN : ∃ t1, NewTicker now d tickOnInit = .ok t1 := by
      have hinv0 : Inv (ManagedTicker.mk Chan.make (TimeTicker.mk d (some (now + d))) d false []) :=
        ⟨not_le.mp hd, rfl⟩
      cases tickOnInit with
      | false =>
        exact ⟨ManagedTicker.mk Chan.make (TimeTicker.mk d (some (now + d))) d false [],
          by simp [NewTicker, TimeTicker.NewTicker, hd]⟩
      | true =>
        have hN1 : NewTicker now d true = tick now now
            (ManagedTicker.mk Chan.make (TimeTicker.mk d (some (now + d))) d false []) := by
          simp [NewTicker, TimeTicker.NewTicker, hd]
        exact ⟨_, hN1.trans (tick_empty _ _ _ hinv0 rfl rfl)⟩
    refine ⟨⟨fun ⟨p, hp⟩ => ?_, fun h => absurd h hd⟩, ⟨fun ⟨p, hp⟩ => ?_, fun h => absurd h hd⟩,
      fun h => absurd h hd, fun _ => ⟨hN, ⟨_, hR⟩⟩⟩
    · obtain ⟨t1, h1⟩ := hN
      rw [h1] at hp; cases hp
    · rw [hR] at hp; cases hp

/-- C5 (initial tick): for `d > 0`, `NewTicker(d, tickOnInit)` returns a ticker
whose channel holds a pending tick exactly when `tickOnInit` is true (the tick
is the construction instant).  With `tickOnInit = false` the channel is empty,
a receive blocks, no delayed call is pending, and the runtime ticker's next
fire is `d` after construction: before that instant the goroutine delivers
nothing, and from that instant on its delivery enqueues the fire time. -/
theorem initial_tick (now : Time) (d : Duration) (tickOnInit : Bool) (hd : 0 < d) :
    ∃ t, NewTicker now d tickOnInit = .ok t ∧
      t.c.buf.isSome = tickOnInit ∧
      (tickOnInit = true → t.c.buf = some now) ∧
      (tickOnInit = false →
        t.c.buf = none ∧ (receive t).1 = .blocks ∧
        t.timeTicker.next = some (now + d) ∧ t.afterFuncs = [] ∧
        (∀ now1, now1 < now + d → timerDue now1 t = false ∧ worker now1 t = .ok t) ∧
        (∀ now1 w, afterFuncFire now1 w t = .ok t) ∧
        (∀ now1, now + d ≤ now1 →
          ∃ t1, worker now1 t = .ok t1 ∧ t1.c.buf = some (now + d))) := by
  refine ⟨_, NewTicker_pos now d tickOnInit hd, ?_, ?_, ?_⟩
  · cases tickOnInit <;> rfl
  · intro h; subst h; rfl
  · intro h; subst h
    refine ⟨rfl, rfl, rfl, rfl, ?_, ?_, ?_⟩
    · intro now1 h1
      have h2 : ¬ now + d ≤ now1 := not_le.mpr h1
      constructor
      · simp [timerDue, h2]
      · simp [worker, h2]
    · intro now1 w
      simp [afterFuncFire]
    · intro now1 h1
      have hinv0 : Inv (ManagedTicker.mk ⟨none, false⟩
          (TimeTicker.rearm ⟨d, some (now + d)⟩ (now + d)) d false []) := ⟨hd, rfl⟩
      have hw : worker now1 (ManagedTicker.mk ⟨none, false⟩ ⟨d, some (now + d)⟩ d false []) =
          tick now1 (now + d) (ManagedTicker.mk ⟨none, false⟩
            (TimeTicker.rearm ⟨d, some (now + d)⟩ (now + d)) d false []) := by
        simp [worker, h1]
      exact ⟨_, hw.trans (tick_empty _ _ _ hinv0 rfl rfl), rfl⟩

/-- The witness of C5: `NewTicker(10, false)` at instant 0. -/
theorem initial_tick_witness :
    (0 : Duration) < 10 ∧
    ∃ t, NewTicker 0 10 false = .ok t ∧ t.c.buf = none ∧ (receive t).1 = .blocks ∧
      t.timeTicker.next = some 10 ∧ worker 9 t = .ok t ∧
      ∃ t1, worker 10 t = .ok t1 ∧ t1.c.buf = some 10 := by
  obtain ⟨t, h1, _, _, h4⟩ := initial_tick 0 10 false (by decide)
  obtain ⟨h5, h6, h7, _, h8, _, h9⟩ := h4 rfl
  exact ⟨by decide, t, h1, h5, h6, h7, (h8 9 (by decide)).2, h9 10 (by decide)⟩

/-- C6, as the spec states it, fails: on the ticker that `NewTicker(10, true)`
built at instant 0, whose initial tick is still pending, `Tick()` at instant 5
is dropped and the runtime ticker stays scheduled for instant 10, not for
5 + 10.  So not every delivery attempt on a running ticker schedules the timer
one construction period after the attempt. -/
theorem delivery_reprograms_timer_counterexample :
    NewTicker 0 10 true = .ok (ManagedTicker.mk ⟨some 0, false⟩ ⟨10, some 10⟩ 10 false []) ∧
    Tick 5 (ManagedTicker.mk ⟨some 0, false⟩ ⟨10, some 10⟩ 10 false []) =
      .ok (ManagedTicker.mk ⟨some 0, false⟩ ⟨10, some 10⟩ 10 false []) ∧
    ¬ (∀ (now tm : Time) (t t1 : ManagedTicker), Inv t → Running t →
        tick now tm t = .ok t1 → t1.timeTicker.next = some (now + t.initialDuration)) := by
  refine ⟨rfl, rfl, ?_⟩
  intro h
  have h1 := h 5 5 (ManagedTicker.mk ⟨some 0, false⟩ ⟨10, some 10⟩ 10 false [])
    (ManagedTicker.mk ⟨some 0, false⟩ ⟨10, some 10⟩ 10 false []) (by decide) (by decide) rfl
  revert h1
  decide

/-- C6, amended: a delivery attempt at instant `now` on a running ticker
reprograms the runtime ticker to the construction period, next fire at
`now + initialDuration`, when it enqueues its timestamp into the empty channel;
when a tick is already pending the timestamp is dropped and the delivery
routine leaves the state, the timer schedule included, untouched.  This is so
for the manual `Tick()`, for the periodic delivery of the goroutine (fire due at
`w`) and for the delayed delivery registered by `TickAfter` (due at `w`). -/
theorem delivery_reprograms_timer (now : Time) (t : ManagedTicker) (hinv : Inv t)
    (hrun : Running t) :
    (t.c.buf = none →
      (∀ tm, ∃ t1, tick now tm t = .ok t1 ∧ t1.c.buf = some tm ∧
        t1.timeTicker = ⟨t.initialDuration, some (now + t.initialDuration)⟩) ∧
      (∃ t1, Tick now t = .ok t1 ∧ t1.c.buf = some now ∧
        t1.timeTicker = ⟨t.initialDuration, some (now + t.initialDuration)⟩) ∧
      (∀ w, t.timeTicker.next = some w → w ≤ now →
        ∃ t1, worker now t = .ok t1 ∧ t1.c.buf = some w ∧
          t1.timeTicker = ⟨t.initialDuration, some (now + t.initialDuration)⟩) ∧
      (∀ w, w ∈ t.afterFuncs → w ≤ now →
        ∃ t1, afterFuncFire now w t = .ok t1 ∧ t1.c.buf = some now ∧
          t1.timeTicker = ⟨t.initialDuration, some (now + t.initialDuration)⟩)) ∧
    (∀ v, t.c.buf = some v →
      (∀ tm, tick now tm t = .ok t) ∧
      Tick now t = .ok t ∧
      (∀ w, t.timeTicker.next = some w → w ≤ now →
        worker now t = .ok { t with timeTicker := t.timeTicker.rearm w }) ∧
      (∀ w, w ∈ t.afterFuncs → w ≤ now →
        afterFuncFire now w t = .ok { t with afterFuncs := t.afterFuncs.erase w })) := by
  have hc : t.ctxErr = false := hrun
  constructor
  · intro hb
    refine ⟨fun tm => ⟨_, tick_empty now tm t hinv hrun hb, rfl, rfl⟩,
      ⟨_, tick_empty now now t hinv hrun hb, rfl, rfl⟩, ?_, ?_⟩
    · intro w hn hw
      have e : worker now t = tick now w { t with timeTicker := t.timeTicker.rearm w } := by
        simp [worker, hc, hn, hw]
      have r := tick_empty now w { t with timeTicker := t.timeTicker.rearm w } hinv hrun hb
      exact ⟨_, e.trans r, rfl, rfl⟩
    · intro w hm hw
      have e : afterFuncFire now w t =
          tick now now { t with afterFuncs := t.afterFuncs.erase w } := by
        simp [afterFuncFire, Tick, hm, hw]
      have r := tick_empty now now { t with afterFuncs := t.afterFuncs.erase w } hinv hrun hb
      exact ⟨_, e.trans r, rfl, rfl⟩
  · intro v hb
    refine ⟨fun tm => tick_full now tm v t hinv hrun hb, tick_full now now v t hinv hrun hb,
      ?_, ?_⟩
    · intro w hn hw
      have e : worker now t = tick now w { t with timeTicker := t.timeTicker.rearm w } := by
        simp [worker, hc, hn, hw]
      exact e.trans (tick_full now w v { t with timeTicker := t.timeTicker.rearm w }
        hinv hrun hb)
    · intro w hm hw
      have e : afterFuncFire now w t =
          tick now now { t with afterFuncs := t.afterFuncs.erase w } := by
        simp [afterFuncFire, Tick, hm, hw]
      exact e.trans (tick_full now now v { t with afterFuncs := t.afterFuncs.erase w }
        hinv hrun hb)

/-- The witness of the amended C6: deliveries at instant 5 on the ticker that
`NewTicker(10, true)` built at instant 0 are dropped and change nothing. -/
theorem delivery_reprograms_timer_witness :
    Inv (ManagedTicker.mk ⟨some 0, false⟩ ⟨10, some 10⟩ 10 false []) ∧
    Running (ManagedTicker.mk ⟨some 0, false⟩ ⟨10, some 10⟩ 10 false []) ∧
    Tick 5 (ManagedTicker.mk ⟨some 0, false⟩ ⟨10, some 10⟩ 10 false []) =
      .ok (ManagedTicker.mk ⟨some 0, false⟩ ⟨10, some 10⟩ 10 false []) :=
  ⟨by decide, by decide,
    ((delivery_reprograms_timer 5 (ManagedTicker.mk ⟨some 0, false⟩ ⟨10, some 10⟩ 10 false [])
      (by decide) (by decide)).2 0 rfl).2.1⟩

/-- C7 (double Stop): the first `Stop()` on a running ticker returns, with the
context cancelled, the runtime ticker stopped and the channel closed; a second
`Stop()` panics on closing the closed channel. -/
theorem double_stop (t : ManagedTicker) (hinv : Inv t) (hrun : Running t) :
    ∃ t1, Stop t = .ok t1 ∧ t1.ctxErr = true ∧ t1.c.closed = true ∧
      t1.timeTicker.next = none ∧ Stop t1 = .error .closeOfClosedChannel := by
  refine ⟨_, Stop_running t hinv hrun, rfl, rfl, rfl, ?_⟩
  simp [Stop, Chan.close]

/-- The witness of C7: two calls of `Stop()` on the ticker that
`NewTicker(10, false)` built at instant 0. -/
theorem double_stop_witness :
    ∃ t1, Stop (ManagedTicker.mk ⟨none, false⟩ ⟨10, some 10⟩ 10 false []) = .ok t1 ∧
      t1.ctxErr = true ∧ t1.c.closed = true ∧ t1.timeTicker.next = none ∧
      Stop t1 = .error .closeOfClosedChannel :=
  double_stop (ManagedTicker.mk ⟨none, false⟩ ⟨10, some 10⟩ 10 false [])
    (by decide) (by decide)

/-- C8 (Reset frame): for `newPeriod > 0`, `Reset(newPeriod)` returns, schedules
the next fire of the runtime ticker `newPeriod` from now, and changes nothing
else: the construction period, the channel, the cancelled flag and the pending
delayed calls are as before.  On a running ticker the next delivery that
enqueues its tick, once the consumer has taken what was pending, reprograms the
runtime ticker to the construction period, not to `newPeriod`. -/
theorem reset_frame (now : Time) (newPeriod : Duration) (t : ManagedTicker)
    (hpos : 0 < newPeriod) :
    ∃ t1, Reset now newPeriod t = .ok t1 ∧
      t1.timeTicker = ⟨newPeriod, some (now + newPeriod)⟩ ∧
      t1.initialDuration = t.initialDuration ∧ t1.c = t.c ∧ t1.ctxErr = t.ctxErr ∧
      t1.afterFuncs = t.afterFuncs ∧
      (Inv t → Running t → ∀ now2 tm,
        ∃ t2, tick now2 tm (receive t1).2 = .ok t2 ∧ t2.c.buf = some tm ∧
          t2.timeTicker = ⟨t.initialDuration, some (now2 + t.initialDuration)⟩) ∧
      (Inv t → Running t → t.c.buf = none → ∀ now2 tm,
        ∃ t2, tick now2 tm t1 = .ok t2 ∧ t2.c.buf = some tm ∧
          t2.timeTicker = ⟨t.initialDuration, some (now2 + t.initialDuration)⟩) := by
  have hd : ¬ newPeriod ≤ 0 := not_le.mpr hpos
  have hR : Reset now newPeriod t =
      .ok { t with timeTicker := ⟨newPeriod, some (now + newPeriod)⟩ } := by
    simp [Reset, TimeTicker.Reset, hd]
  refine ⟨_, hR, rfl, rfl, rfl, rfl, rfl, ?_, ?_⟩
  · intro hinv hrun now2 tm
    have hcl : t.c.closed = false := by rw [hinv.2]; exact hrun
    have hinv1 : Inv (receive { t with timeTicker := ⟨newPeriod, some (now + newPeriod)⟩ }).2 := by
      refine ⟨hinv.1, ?_⟩
      show (t.c.recv).2.closed = t.ctxErr
      rw [← hinv.2]
      unfold Chan.recv
      cases t.c.buf <;> simp [hcl]
    have hb1 : (receive { t with timeTicker := ⟨newPeriod, some (now + newPeriod)⟩ }).2.c.buf
        = none := by
      show (t.c.recv).2.buf = none
      unfold Chan.recv
      cases hb : t.c.buf <;> simp [hcl, hb]
    exact ⟨_, tick_empty now2 tm _ hinv1 hrun hb1, rfl, rfl⟩
  · intro hinv hrun hb now2 tm
    exact ⟨_, tick_empty now2 tm { t with timeTicker := ⟨newPeriod, some (now + newPeriod)⟩ }
      hinv hrun hb, rfl, rfl⟩

/-- The witness of C8: `Reset(3)` at instant 4 on the ticker that
`NewTicker(10, false)` built at instant 0, then `Tick()` at instant 6. -/
theorem reset_frame_witness :
    (0 : Duration) < 3 ∧
    ∃ t1, Reset 4 3 (ManagedTicker.mk ⟨none, false⟩ ⟨10, some 10⟩ 10 false []) = .ok t1 ∧
      t1.timeTicker = ⟨3, some 7⟩ ∧ t1.initialDuration = 10 ∧
      ∃ t2, tick 6 6 t1 = .ok t2 ∧ t2.c.buf = some 6 ∧ t2.timeTicker = ⟨10, some 16⟩ := by
  obtain ⟨t1, h1, h2, h3, _, _, _, _, h8⟩ :=
    reset_frame 4 3 (ManagedTicker.mk ⟨none, false⟩ ⟨10, some 10⟩ 10 false []) (by decide)
  exact ⟨by decide, t1, h1, h2, h3, h8 (by decide) (by decide) rfl 6 6⟩

/-- C9, the code at the failing input: on the ticker that `NewTicker(10, false)`
built at instant 0 a receive blocks; `Stop()` returns a ticker whose channel is
closed, and the same receive now completes with the closed-channel zero value.
The doc comment of `Stop` says the channel is not closed. -/
theorem Stop_closes_channel :
    ∃ t t1, NewTicker 0 10 false = .ok t ∧ (receive t).1 = .blocks ∧
      Stop t = .ok t1 ∧ t1.c.closed = true ∧ (receive t1).1 = .closed :=
  ⟨ManagedTicker.mk ⟨none, false⟩ ⟨10, some 10⟩ 10 false [],
    ManagedTicker.mk ⟨none, true⟩ ⟨10, none⟩ 10 true [], rfl, rfl, rfl, rfl, rfl⟩

/-- C10 (TickAfter is a one-shot Tick): in every state, `TickAfter(d)` leaves
the channel, the timer schedule, the construction period and the cancelled flag
unchanged and registers exactly one call, due at `now + d`.  Before that instant
the call does not run.  When it runs, at `now1`, the outcome is that of `Tick()`
at `now1` on the state before `TickAfter`, panics included, with the registered
call consumed; and when `Stop()` came in between, the call returns and leaves
the stopped ticker's channel, timer and flag as `Stop` left them. -/
theorem TickAfter_one_shot (now : Time) (d : Duration) (t : ManagedTicker) :
    (TickAfter now d t).c = t.c ∧
    (TickAfter now d t).timeTicker = t.timeTicker ∧
    (TickAfter now d t).initialDuration = t.initialDuration ∧
    (TickAfter now d t).ctxErr = t.ctxErr ∧
    (TickAfter now d t).afterFuncs = t.afterFuncs ++ [now + d] ∧
    (TickAfter now d t).afterFuncs.length = t.afterFuncs.length + 1 ∧
    (∀ now1, now1 < now + d →
      afterFuncFire now1 (now + d) (TickAfter now d t) = .ok (TickAfter now d t)) ∧
    (∀ now1, now + d ≤ now1 →
      afterFuncFire now1 (now + d) (TickAfter now d t) =
        (Tick now1 t).map (fun u =>
          { u with afterFuncs := (t.afterFuncs ++ [now + d]).erase (now + d) }) ∧
      ((t.afterFuncs ++ [now + d]).erase (now + d)).length = t.afterFuncs.length ∧
      ((now + d) ∉ t.afterFuncs →
        afterFuncFire now1 (now + d) (TickAfter now d t) = Tick now1 t)) ∧
    (∀ now1 t1, now + d ≤ now1 → Stop (TickAfter now d t) = .ok t1 →
      ∃ t2, afterFuncFire now1 (now + d) t1 = .ok t2 ∧ t2.c = t1.c ∧
        t2.timeTicker = t1.timeTicker ∧ t2.ctxErr = true ∧
        t2.initialDuration = t1.initialDuration) := by
  have hmem : (now + d) ∈ t.afterFuncs ++ [now + d] := by simp
  have key : ∀ now1, now + d ≤ now1 →
      afterFuncFire now1 (now + d) (TickAfter now d t) =
        (Tick now1 t).map (fun u =>
          { u with afterFuncs := (t.afterFuncs ++ [now + d]).erase (now + d) }) := by
    intro now1 h1
    have e : afterFuncFire now1 (now + d) (TickAfter now d t) =
        tick now1 now1 { t with afterFuncs := (t.afterFuncs ++ [now + d]).erase (now + d) } := by
      simp [afterFuncFire, TickAfter, Tick, h1]
    rw [e, tick_afterFuncs]
    rfl
  refine ⟨rfl, rfl, rfl, rfl, rfl, by simp [TickAfter], ?_, ?_, ?_⟩
  · intro now1 h1
    have h2 : ¬ now + d ≤ now1 := not_le.mpr h1
    simp [afterFuncFire, h2]
  · intro now1 h1
    refine ⟨key now1 h1, ?_, ?_⟩
    · rw [List.length_erase_of_mem hmem]
      simp
    · intro hnot
      rw [key now1 h1]
      have hl : (t.afterFuncs ++ [now + d]).erase (now + d) = t.afterFuncs := by
        rw [List.erase_append_right _ hnot]
        simp
      rw [hl]
      cases hT : Tick now1 t with
      | error p => rfl
      | ok u =>
        have hk := tick_keeps_afterFuncs now1 now1 t u hT
        show Except.ok { u with afterFuncs := t.afterFuncs } = Except.ok u
        rw [← hk]
  · intro now1 t1 h1 hs
    obtain ⟨_, rfl⟩ := Stop_ok_inv _ t1 hs
    have e : afterFuncFire now1 (now + d)
        { TickAfter now d t with
          timeTicker := (TickAfter now d t).timeTicker.Stop
          ctxErr := true
          c := { (TickAfter now d t).c with closed := true } } =
        tick now1 now1 { TickAfter now d t with
          timeTicker := (TickAfter now d t).timeTicker.Stop
          ctxErr := true
          c := { (TickAfter now d t).c with closed := true }
          afterFuncs := (t.afterFuncs ++ [now + d]).erase (now + d) } := by
      simp [afterFuncFire, TickAfter, Tick, h1]
    exact ⟨_, e.trans (tick_cancelled _ _ _ rfl), rfl, rfl, rfl, rfl⟩

end Ticker
